import Mathlib

/-!
Verification of the `VideoDownloader` component
(`src/js/components/VideoDownloader.js` of the kino repository).

The embedding models JavaScript numbers as rationals (`ℚ`); the only numeric
operations the component performs on them are addition, division, `Math.min`
and `Math.max`, which are exact, so `ℚ` is a faithful abstraction for finite
values.  A `bytesTotal` field that is still unknown (absent / `undefined` in
JavaScript) is modelled as `none : Option ℚ`; the JavaScript truthiness test
`!fileMeta.bytesTotal` is falsy exactly on an absent or zero value, which
`bytesTotalFalsy` reproduces.  A string attribute holding a number is modelled
by the rational it parses to, with `none` standing for `NaN` (the result of
`parseFloat` on non-numeric input); `String`/`parseFloat` round-trips are exact
for finite values.
-/

namespace Kino

/-- Download state record for one downloadable file, as produced by the URL
resolver (fresh stub) or read back from IndexedDB (persisted record). -/
structure FileMeta where
  url : String
  bytesDownloaded : ℚ
  bytesTotal : Option ℚ
  done : Bool
deriving DecidableEq, Repr

/-- JavaScript truthiness of `!fileMeta.bytesTotal`: the test is true when
`bytesTotal` is absent (`undefined`) or zero. -/
def bytesTotalFalsy : Option ℚ → Bool
  | none => true
  | some t => t = 0

/-- One step of the `reduce` body inside `getProgress` (lines 190–200): the
amount added to the accumulator for a single `FileMeta`. -/
def fileShare (pieceValue : ℚ) (fileMeta : FileMeta) : ℚ :=
  if fileMeta.done then
    pieceValue
  else if fileMeta.bytesDownloaded = 0 ∨ bytesTotalFalsy fileMeta.bytesTotal then
    0
  else
    fileMeta.bytesDownloaded / fileMeta.bytesTotal.getD 0 * pieceValue

/-- The `percentageProgress` accumulator of `getProgress` (lines 188–202):
`reduce` over the file list starting from `0`, with
`pieceValue = 1 / files.length`. -/
def percentageProgress (files : List FileMeta) : ℚ :=
  files.foldl (fun percentage fileMeta =>
    percentage + fileShare (1 / (files.length : ℚ)) fileMeta) 0

/-- `getProgress()` (lines 187–206): the accumulated value clamped by
`Math.max(0, Math.min(percentageProgress, 100))`. -/
def getProgress (files : List FileMeta) : ℚ :=
  max 0 (min (percentageProgress files) 100)

/-- Lookup in the `dbFilesByUrl` object built by `init` (lines 114–115) via
`Object.fromEntries`: for duplicate keys the last entry wins, so the lookup
finds the last record with the given url. -/
def dbFilesByUrl (dbFiles : List FileMeta) (url : String) : Option FileMeta :=
  dbFiles.reverse.find? (fun fileMeta => fileMeta.url = url)

/-- The resume merge of `init` (lines 121–123): map each fresh entry to the
persisted record with its url when the lookup succeeds, otherwise keep the
fresh stub. -/
def filesWithStateUpdatedFromDb (files dbFiles : List FileMeta) : List FileMeta :=
  files.map (fun fileMeta => (dbFilesByUrl dbFiles fileMeta.url).getD fileMeta)

/-- Aggregate per-video record; on a bare object `{}` the `done` field is
absent, modelled by `none`. -/
structure VideoMeta where
  done : Option Bool
deriving DecidableEq, Repr

/-- The empty object `{}` that `getMeta` falls back to. -/
def emptyVideoMeta : VideoMeta := ⟨none⟩

/-- `getMeta()` (lines 267–269): `this.internal.meta || {}`; an absent stored
record yields the empty object. -/
def getMeta (internalMeta : Option VideoMeta) : VideoMeta :=
  internalMeta.getD emptyVideoMeta

/-- JavaScript truthiness of `videoMeta.done` in `setDownloadState`
(line 297): an absent field reads as `undefined`, which is falsy. -/
def metaDoneTruthy (videoMeta : VideoMeta) : Bool :=
  videoMeta.done.getD false

/-- The state string chosen by `setDownloadState` (lines 291–306): `done` when
the video meta is marked done, else `partial` when the computed progress is
truthy (non-zero, since `getProgress` is never negative), else `ready`. -/
def setDownloadState (internalMeta : Option VideoMeta) (files : List FileMeta) : String :=
  if metaDoneTruthy (getMeta internalMeta) then "done"
  else if getProgress files ≠ 0 then "partial"
  else "ready"

/-- The clamp `Math.min(Math.max(0, parseFloat(x)), 100)` shared by the
`progress` getter and setter (lines 67–79), with `none` standing for `NaN`
(`Math.max`/`Math.min` propagate `NaN`). -/
def clampAttr (value : Option ℚ) : Option ℚ :=
  value.map (fun x => min (max 0 x) 100)

/-- The `progress` setter (lines 74–79): the attribute string stored after an
assignment, as the rational it parses back to (`none` for `NaN`). -/
def progressSet (value : Option ℚ) : Option ℚ :=
  clampAttr value

/-- The `progress` getter (lines 67–72): parse the stored attribute and clamp
again. -/
def progressGet (attr : Option ℚ) : Option ℚ :=
  clampAttr attr

/-- Per-file contribution as the specification states it (claim C2): a done
file contributes `1/N`; a non-done file with unknown or zero `bytesTotal`
contributes `0`; otherwise `(bytesDownloaded / bytesTotal) * (1/N)`. -/
def specFileContribution (n : ℕ) (fileMeta : FileMeta) : ℚ :=
  if fileMeta.done then
    1 / (n : ℚ)
  else
    match fileMeta.bytesTotal with
    | none => 0
    | some t => if t = 0 then 0 else fileMeta.bytesDownloaded / t * (1 / (n : ℚ))

/-- Domination relation between an earlier and a later per-file state, as
claim C4 states it: same url, `bytesDownloaded` does not shrink, `done` only
flips from false to true and then `bytesDownloaded` equals `bytesTotal`, and
`bytesTotal` only transitions from unknown to a known value. -/
def dominates (f g : FileMeta) : Prop :=
  f.url = g.url ∧
  f.bytesDownloaded ≤ g.bytesDownloaded ∧
  (f.done = true → g.done = true) ∧
  (f.done = false → g.done = true → g.bytesTotal = some g.bytesDownloaded) ∧
  (f.bytesTotal = none ∨ g.bytesTotal = f.bytesTotal)

instance (f g : FileMeta) : Decidable (dominates f g) := by
  unfold dominates; infer_instance

/-- Well-formedness of the byte counters: `bytesDownloaded` is nonnegative and
a known `bytesTotal` is nonnegative (`getD 0` makes the condition vacuous for
an unknown total). -/
def wellFormedBytes (f : FileMeta) : Prop :=
  0 ≤ f.bytesDownloaded ∧ 0 ≤ f.bytesTotal.getD 0

instance (f : FileMeta) : Decidable (wellFormedBytes f) := by
  unfold wellFormedBytes; infer_instance

lemma foldl_add_fileShare (pv : ℚ) (l : List FileMeta) (acc0 : ℚ) :
    l.foldl (fun acc f => acc + fileShare pv f) acc0 = acc0 + (l.map (fileShare pv)).sum := by
  induction l generalizing acc0 with
  | nil => simp
  | cons x t ih => simp [ih]; ring

lemma percentageProgress_eq_sum (files : List FileMeta) :
    percentageProgress files = (files.map (fileShare (1 / (files.length : ℚ)))).sum := by
  simp [percentageProgress, foldl_add_fileShare]

lemma fileShare_eq_specContribution (n : ℕ) (f : FileMeta) :
    fileShare (1 / (n : ℚ)) f = specFileContribution n f := by
  rcases f with ⟨u, bd, bt, d⟩
  cases d with
  | true => simp [fileShare, specFileContribution]
  | false =>
    cases bt with
    | none => simp [fileShare, specFileContribution, bytesTotalFalsy]
    | some t =>
      by_cases ht : t = 0
      · simp [fileShare, specFileContribution, bytesTotalFalsy, ht]
      · by_cases hbd : bd = 0
        · simp [fileShare, specFileContribution, bytesTotalFalsy, ht, hbd]
        · simp [fileShare, specFileContribution, bytesTotalFalsy, ht, hbd]

lemma fileShare_nonneg (pv : ℚ) (hpv : 0 ≤ pv) (f : FileMeta) (hf : wellFormedBytes f) :
    0 ≤ fileShare pv f := by
  unfold fileShare
  split
  · exact hpv
  · split
    · exact le_refl 0
    · exact mul_nonneg (div_nonneg hf.1 hf.2) hpv

lemma bytesTotal_of_not_falsy (f : FileMeta) (h : ¬ (bytesTotalFalsy f.bytesTotal = true)) :
    ∃ t, f.bytesTotal = some t ∧ t ≠ 0 := by
  cases hbt : f.bytesTotal with
  | none => exact absurd (by simp [bytesTotalFalsy, hbt]) h
  | some t =>
    refine ⟨t, rfl, ?_⟩
    intro ht0
    exact h (by simp [bytesTotalFalsy, hbt, ht0])

lemma fileShare_mono (pv : ℚ) (hpv : 0 ≤ pv) (f g : FileMeta)
    (hf : wellFormedBytes f) (hg : wellFormedBytes g) (hd : dominates f g) :
    fileShare pv f ≤ fileShare pv g := by
  obtain ⟨-, hbd, hdone, hflip, hbt⟩ := hd
  by_cases hfd : f.done = true
  · rw [fileShare, if_pos hfd, fileShare, if_pos (hdone hfd)]
  · by_cases hgd : g.done = true
    · have hgEq : g.bytesTotal = some g.bytesDownloaded :=
        hflip (Bool.not_eq_true f.done ▸ hfd) hgd
      rw [fileShare, if_neg hfd, fileShare, if_pos hgd]
      split
      · exact hpv
      · rename_i hcond
        push_neg at hcond
        obtain ⟨hbd0, hfalsy⟩ := hcond
        obtain ⟨t, hbtf, ht0⟩ := bytesTotal_of_not_falsy f hfalsy
        have hgbt : g.bytesTotal = some t := by
          rcases hbt with h1 | h1
          · rw [h1] at hbtf; exact absurd hbtf (by simp)
          · rw [h1, hbtf]
        have hgbd : g.bytesDownloaded = t := by
          rw [hgEq] at hgbt
          exact Option.some.inj hgbt
        have htnn : 0 ≤ t := by
          have := hf.2
          rw [hbtf] at this
          simpa using this
        have htpos : 0 < t := lt_of_le_of_ne htnn (Ne.symm ht0)
        rw [hbtf]
        simp only [Option.getD_some]
        calc f.bytesDownloaded / t * pv
            ≤ 1 * pv := by
              apply mul_le_mul_of_nonneg_right _ hpv
              rw [div_le_one htpos]
              rw [← hgbd]
              exact hbd
          _ = pv := one_mul pv
    · rw [fileShare, if_neg hfd, fileShare, if_neg hgd]
      by_cases hzf : f.bytesDownloaded = 0 ∨ bytesTotalFalsy f.bytesTotal = true
      · rw [if_pos hzf]
        split
        · exact le_refl 0
        · exact mul_nonneg (div_nonneg hg.1 hg.2) hpv
      · rw [if_neg hzf]
        push_neg at hzf
        obtain ⟨hbd0, hfalsy⟩ := hzf
        obtain ⟨t, hbtf, ht0⟩ := bytesTotal_of_not_falsy f hfalsy
        have hgbt : g.bytesTotal = some t := by
          rcases hbt with h1 | h1
          · rw [h1] at hbtf; exact absurd hbtf (by simp)
          · rw [h1, hbtf]
        have htnn : 0 ≤ t := by
          have := hf.2
          rw [hbtf] at this
          simpa using this
        have htpos : 0 < t := lt_of_le_of_ne htnn (Ne.symm ht0)
        have hfpos : 0 < f.bytesDownloaded := lt_of_le_of_ne hf.1 (Ne.symm hbd0)
        have hgbd0 : ¬ (g.bytesDownloaded = 0 ∨ bytesTotalFalsy g.bytesTotal = true) := by
          push_neg
          constructor
          · exact ne_of_gt (lt_of_lt_of_le hfpos hbd)
          · simp [bytesTotalFalsy, hgbt, ht0]
        rw [if_neg hgbd0, hbtf, hgbt]
        simp only [Option.getD_some]
        apply mul_le_mul_of_nonneg_right _ hpv
        exact (div_le_div_iff_of_pos_right htpos).2 hbd

lemma sum_fileShare_mono (pv : ℚ) (hpv : 0 ≤ pv) {l₁ l₂ : List FileMeta}
    (h : List.Forall₂ (fun f g => wellFormedBytes f ∧ wellFormedBytes g ∧ dominates f g) l₁ l₂) :
    (l₁.map (fileShare pv)).sum ≤ (l₂.map (fileShare pv)).sum := by
  induction h with
  | nil => exact le_refl 0
  | cons hfg _ ih =>
    simp only [List.map_cons, List.sum_cons]
    exact add_le_add (fileShare_mono pv hpv _ _ hfg.1 hfg.2.1 hfg.2.2) ih

lemma dbFilesByUrl_eq_some (dbFiles : List FileMeta)
    (hnodup : (dbFiles.map FileMeta.url).Nodup) (m : FileMeta) (hm : m ∈ dbFiles) :
    dbFilesByUrl dbFiles m.url = some m := by
  unfold dbFilesByUrl
  cases hfind : dbFiles.reverse.find? (fun fileMeta => fileMeta.url = m.url) with
  | none =>
    have := List.find?_eq_none.1 hfind m (by simpa using hm)
    simp at this
  | some m2 =>
    have hmem : m2 ∈ dbFiles := by
      have := List.mem_of_find?_eq_some hfind
      simpa using this
    have hurl : m2.url = m.url := by
      have := List.find?_some hfind
      simpa using this
    rw [List.inj_on_of_nodup_map hnodup hmem hm hurl]

lemma dbFilesByUrl_eq_none (dbFiles : List FileMeta) (url : String)
    (h : ∀ m ∈ dbFiles, m.url ≠ url) :
    dbFilesByUrl dbFiles url = none := by
  unfold dbFilesByUrl
  apply List.find?_eq_none.2
  intro m hm
  simpa using h m (by simpa using hm)

lemma url_of_merged (dbFiles : List FileMeta) (f : FileMeta) :
    ((dbFilesByUrl dbFiles f.url).getD f).url = f.url := by
  cases hfind : dbFilesByUrl dbFiles f.url with
  | none => rfl
  | some m =>
    have := List.find?_some hfind
    simpa using this

/-- C9: for the empty file set the fold yields 0 and the clamp keeps it 0, so
`getProgress` returns 0 (the division `1 / 0` in `pieceValue` is never used by
the empty fold, so no failure occurs). -/
theorem getProgress_nil : getProgress [] = 0 := by
  simp [getProgress, percentageProgress]

/-- C1 (code bug evaluation): on the resume scenario — file A with
`bytesTotal = 100`, `bytesDownloaded = 40`, not done, and file B a fresh stub —
`getProgress()` returns `1/5 = 0.2`, not the `20` the claim (and the function's
own doc comment, which promises a percentage in the range 0–100) requires: the
code clamps the mean fraction but never multiplies it by 100. -/
theorem getProgress_resume_scenario :
    getProgress [⟨"https://cdn/a.mp4", 40, some 100, false⟩,
                 ⟨"https://cdn/b.mp4", 0, none, false⟩] = 1 / 5 := by
  norm_num [getProgress, percentageProgress, fileShare, bytesTotalFalsy]

/-- C6 (code bug evaluation): with every file done, `getProgress()` returns
`1`, not the `100` the claim requires: each done file contributes
`pieceValue = 1/N`, the sum is `1`, and the clamp `max 0 (min 1 100)` leaves it
at `1` because the multiplication by 100 is missing. -/
theorem getProgress_all_done_two_files :
    getProgress [⟨"https://cdn/a.mp4", 100, some 100, true⟩,
                 ⟨"https://cdn/b.mp4", 300, some 300, true⟩] = 1 := by
  norm_num [getProgress, percentageProgress, fileShare, bytesTotalFalsy]

/-- C2: in `getProgress()` the pre-clamp aggregate equals the sum over the
files of the contribution the specification states: exactly `1/N` for a done
file, `0` for a non-done file with unknown or zero `bytesTotal`, and
`(bytesDownloaded / bytesTotal) * (1/N)` for a non-done file with known,
non-zero `bytesTotal`. (The code also short-circuits `bytesDownloaded = 0` to
a contribution of `0`, which coincides with `(0 / bytesTotal) * (1/N)`.) -/
theorem percentageProgress_eq_spec_sum (files : List FileMeta) :
    percentageProgress files = (files.map (specFileContribution files.length)).sum := by
  rw [percentageProgress_eq_sum]
  congr 1
  exact List.map_congr_left (fun f _ => fileShare_eq_specContribution files.length f)

/-- C7: for every file set — any combination of done flags and byte counters,
including negative values or `bytesDownloaded` exceeding `bytesTotal` — the
value of `getProgress()` lies in the closed range `[0, 100]`, because of the
final clamp `Math.max(0, Math.min(percentageProgress, 100))`. -/
theorem getProgress_range (files : List FileMeta) :
    0 ≤ getProgress files ∧ getProgress files ≤ 100 :=
  ⟨le_max_left 0 _, max_le (by norm_num) (min_le_right _ 100)⟩

/-- C3: the resume merge of `init` maps the fresh ordered file list to a
working set of the same length, where the entry at each position is the
persisted record with the same url when one exists (given the data-model
invariant that persisted urls are unique) and the fresh stub otherwise, and no
persisted record whose url is absent from the fresh list appears in the
working set. -/
theorem init_merge_spec (files dbFiles : List FileMeta)
    (hnodup : (dbFiles.map FileMeta.url).Nodup) :
    (filesWithStateUpdatedFromDb files dbFiles).length = files.length
    ∧ (∀ (i : ℕ) (f : FileMeta), files[i]? = some f →
        (∀ m ∈ dbFiles, m.url = f.url →
          (filesWithStateUpdatedFromDb files dbFiles)[i]? = some m)
        ∧ ((∀ m ∈ dbFiles, m.url ≠ f.url) →
          (filesWithStateUpdatedFromDb files dbFiles)[i]? = some f))
    ∧ (∀ m ∈ dbFiles, m.url ∉ files.map FileMeta.url →
        m ∉ filesWithStateUpdatedFromDb files dbFiles) := by
  refine ⟨by simp [filesWithStateUpdatedFromDb], ?_, ?_⟩
  · intro i f hif
    have hmap : (filesWithStateUpdatedFromDb files dbFiles)[i]?
        = some ((dbFilesByUrl dbFiles f.url).getD f) := by
      simp [filesWithStateUpdatedFromDb, hif]
    constructor
    · intro m hm hurl
      rw [hmap, ← hurl, dbFilesByUrl_eq_some dbFiles hnodup m hm]
      rfl
    · intro hnone
      rw [hmap, dbFilesByUrl_eq_none dbFiles f.url hnone]
      rfl
  · intro m hm hnotin hmem
    obtain ⟨f, hf, hfm⟩ := List.mem_map.1 hmem
    apply hnotin
    have : m.url = f.url := by rw [← hfm]; exact url_of_merged dbFiles f
    rw [this]
    exact List.mem_map_of_mem FileMeta.url hf

/-- Witness for C3 at a concrete instance: fresh list with urls `u1`, `u2`;
persisted records for `u1` (to be resumed) and `u3` (to be dropped). -/
theorem init_merge_spec_witness :
    (([⟨"u1", 40, some 100, false⟩, ⟨"u3", 10, some 50, false⟩].map FileMeta.url).Nodup)
    ∧ ((filesWithStateUpdatedFromDb
          [⟨"u1", 0, none, false⟩, ⟨"u2", 0, none, false⟩]
          [⟨"u1", 40, some 100, false⟩, ⟨"u3", 10, some 50, false⟩]).length
        = ([⟨"u1", 0, none, false⟩, ⟨"u2", 0, none, false⟩] : List FileMeta).length
      ∧ (∀ (i : ℕ) (f : FileMeta), ([⟨"u1", 0, none, false⟩, ⟨"u2", 0, none, false⟩] : List FileMeta)[i]? = some f →
          (∀ m ∈ ([⟨"u1", 40, some 100, false⟩, ⟨"u3", 10, some 50, false⟩] : List FileMeta), m.url = f.url →
            (filesWithStateUpdatedFromDb
              [⟨"u1", 0, none, false⟩, ⟨"u2", 0, none, false⟩]
              [⟨"u1", 40, some 100, false⟩, ⟨"u3", 10, some 50, false⟩])[i]? = some m)
          ∧ ((∀ m ∈ ([⟨"u1", 40, some 100, false⟩, ⟨"u3", 10, some 50, false⟩] : List FileMeta), m.url ≠ f.url) →
            (filesWithStateUpdatedFromDb
              [⟨"u1", 0, none, false⟩, ⟨"u2", 0, none, false⟩]
              [⟨"u1", 40, some 100, false⟩, ⟨"u3", 10, some 50, false⟩])[i]? = some f))
      ∧ (∀ m ∈ ([⟨"u1", 40, some 100, false⟩, ⟨"u3", 10, some 50, false⟩] : List FileMeta),
          m.url ∉ ([⟨"u1", 0, none, false⟩, ⟨"u2", 0, none, false⟩] : List FileMeta).map FileMeta.url →
          m ∉ filesWithStateUpdatedFromDb
            [⟨"u1", 0, none, false⟩, ⟨"u2", 0, none, false⟩]
            [⟨"u1", 40, some 100, false⟩, ⟨"u3", 10, some 50, false⟩])) :=
  ⟨by decide, init_merge_spec
    [⟨"u1", 0, none, false⟩, ⟨"u2", 0, none, false⟩]
    [⟨"u1", 40, some 100, false⟩, ⟨"u3", 10, some 50, false⟩] (by decide)⟩

/-- C5: the resume merge is idempotent — when the persisted records are
exactly the entries of the fresh resolver output (whose urls are unique, per
the data-model invariant), the merged working set is the fresh output
itself. -/
theorem merge_idempotent (files : List FileMeta)
    (hnodup : (files.map FileMeta.url).Nodup) :
    filesWithStateUpdatedFromDb files files = files := by
  unfold filesWithStateUpdatedFromDb
  conv_rhs => rw [← List.map_id files]
  apply List.map_congr_left
  intro f hf
  rw [dbFilesByUrl_eq_some files hnodup f hf]
  rfl

/-- Witness for C5 at a concrete two-file instance. -/
theorem merge_idempotent_witness :
    (([⟨"u1", 40, some 100, false⟩, ⟨"u2", 0, none, false⟩].map FileMeta.url).Nodup)
    ∧ filesWithStateUpdatedFromDb
        [⟨"u1", 40, some 100, false⟩, ⟨"u2", 0, none, false⟩]
        [⟨"u1", 40, some 100, false⟩, ⟨"u2", 0, none, false⟩]
      = [⟨"u1", 40, some 100, false⟩, ⟨"u2", 0, none, false⟩] :=
  ⟨by decide, merge_idempotent [⟨"u1", 40, some 100, false⟩, ⟨"u2", 0, none, false⟩] (by decide)⟩

/-- C4 (counterexample): the domination relation exactly as the claim states
it — same url, `bytesDownloaded` not smaller, `done` only flips false→true
with `bytesDownloaded = bytesTotal`, `bytesTotal` only transitions from
unknown to a known value — does not make `getProgress` monotone: letting file
B's `bytesTotal` become known as the negative value `-10` turns its
contribution negative, and the aggregate drops from `1/2` to `1/4`. -/
theorem getProgress_mono_counterexample :
    List.Forall₂ dominates
      [⟨"a", 100, some 100, true⟩, ⟨"b", 5, none, false⟩]
      [⟨"a", 100, some 100, true⟩, ⟨"b", 5, some (-10), false⟩]
    ∧ getProgress [⟨"a", 100, some 100, true⟩, ⟨"b", 5, some (-10), false⟩]
      < getProgress [⟨"a", 100, some 100, true⟩, ⟨"b", 5, none, false⟩] :=
  ⟨by decide, by norm_num [getProgress, percentageProgress, fileShare, bytesTotalFalsy]⟩

/-- C4 (amended): `getProgress()` is monotone along the claim's domination
relation provided the byte counters are well formed — `bytesDownloaded`
nonnegative and any known `bytesTotal` nonnegative — in both states. -/
theorem getProgress_mono (l₁ l₂ : List FileMeta)
    (h : List.Forall₂ (fun f g => wellFormedBytes f ∧ wellFormedBytes g ∧ dominates f g) l₁ l₂) :
    getProgress l₁ ≤ getProgress l₂ := by
  have hlen := h.length_eq
  have hpv : (0 : ℚ) ≤ 1 / (l₁.length : ℚ) := by positivity
  have hsum : percentageProgress l₁ ≤ percentageProgress l₂ := by
    rw [percentageProgress_eq_sum, percentageProgress_eq_sum, ← hlen]
    exact sum_fileShare_mono _ hpv h
  exact max_le_max (le_refl 0) (min_le_min hsum (le_refl 100))

/-- Witness for C4 (amended): a single file advancing from 40 of 100 bytes to
done. -/
theorem getProgress_mono_witness :
    List.Forall₂ (fun f g => wellFormedBytes f ∧ wellFormedBytes g ∧ dominates f g)
      [⟨"a", 40, some 100, false⟩] [⟨"a", 100, some 100, true⟩]
    ∧ getProgress [⟨"a", 40, some 100, false⟩] ≤ getProgress [⟨"a", 100, some 100, true⟩] :=
  ⟨by decide, getProgress_mono [⟨"a", 40, some 100, false⟩] [⟨"a", 100, some 100, true⟩] (by decide)⟩

/-- C8: when no persisted VideoMeta record exists at session start,
`getMeta()` falls back to the empty object, whose `done` field is not `true`,
and `setDownloadState()` never selects the `done` state: it picks `partial` or
`ready` according to the computed progress. -/
theorem absent_meta_not_done (files : List FileMeta) :
    (getMeta none).done ≠ some true ∧ setDownloadState none files ≠ "done" := by
  constructor
  · simp [getMeta, emptyVideoMeta]
  · rw [setDownloadState]
    have h : metaDoneTruthy (getMeta none) = false := rfl
    rw [h]
    simp only [Bool.false_eq_true, if_false]
    split
    · decide
    · decide

/-- C10: assigning a finite numeric value to the `progress` setter and reading
the getter returns the value clamped to `[0, 100]`; re-assigning the stored
attribute does not change it (the clamp is idempotent); a non-numeric
assignment stores `NaN` (modelled as `none`) and the getter returns `NaN`. -/
theorem progress_set_get_clamp (v : ℚ) :
    progressGet (progressSet (some v)) = some (min (max 0 v) 100)
    ∧ progressSet (progressSet (some v)) = progressSet (some v)
    ∧ progressGet (progressSet none) = none := by
  have h0 : (0 : ℚ) ≤ min (max 0 v) 100 := le_min (le_max_left 0 v) (by norm_num)
  have h1 : min (max 0 v) 100 ≤ 100 := min_le_right (max 0 v) 100
  refine ⟨?_, ?_, rfl⟩
  · simp [progressGet, progressSet, clampAttr, max_eq_right h0, min_eq_left h1]
  · simp [progressSet, clampAttr, max_eq_right h0, min_eq_left h1]

end Kino
